import Mathlib

/-!
Shallow embedding of `conflicts_info_parse` (src/src/main.rs), a batch tool
that annotates a smart-contract ABI JSON document with storage-slot conflict
records loaded from four tab-separated CSV exports, keyed by the 4-byte
function selector (Keccak-256 or SM3 of the canonical method signature).

Machine integers are modelled as `Nat` with explicit bounds / `% 2^w` where
overflow matters; Rust panics (`unwrap`/`expect`) are modelled as `Option`
failure (`none` = the process aborts); log output (`error!`) is modelled as an
explicitly returned list of warning strings.
-/

namespace ConflictsInfo

/-- Model of `serde_json::Value` (numbers restricted to integers, which is all
this program ever reads or writes). Objects are ordered key/value lists. -/
inductive Json where
  | null : Json
  | bool : Bool → Json
  | num : Int → Json
  | str : String → Json
  | arr : List Json → Json
  | obj : List (String × Json) → Json

/-- Lookup of a key in an object's key/value list (first occurrence). -/
def jlookup : List (String × Json) → String → Option Json
  | [], _ => none
  | (k, v) :: rest, key => if k = key then some v else jlookup rest key

/-- `Map::contains_key`. -/
def jcontains (kvs : List (String × Json)) (key : String) : Bool :=
  (jlookup kvs key).isSome

/-- Indexing `value[key]` on a `serde_json::Value`: yields `Null` when the
value is not an object or the key is missing (never panics). -/
def Json.index (v : Json) (key : String) : Json :=
  match v with
  | .obj kvs => (jlookup kvs key).getD .null
  | _ => .null

/-- `Value::as_str`. -/
def Json.asStr : Json → Option String
  | .str s => some s
  | _ => none

/-- `Value::as_array`. -/
def Json.asArr : Json → Option (List Json)
  | .arr xs => some xs
  | _ => none

/-- `Value::as_object` (also covering `as_object_mut`). -/
def Json.asObj : Json → Option (List (String × Json))
  | .obj kvs => some kvs
  | _ => none

/-- `serde_json::Map::insert`: replaces the value of an existing key in
place, otherwise appends the new entry. -/
def jinsert : List (String × Json) → String → Json → List (String × Json)
  | [], key, v => [(key, v)]
  | (k, w) :: rest, key, v =>
      if k = key then (k, v) :: rest else (k, w) :: jinsert rest key v

/-- `enum ConflictType` with its `#[repr(u8)]` discriminants. -/
inductive ConflictType where
  | all | len | env | var | const | none
deriving DecidableEq, Repr

/-- The serialized numeric code of a `ConflictType` (`Serialize_repr`). -/
def ConflictType.code : ConflictType → Nat
  | .all => 0
  | .len => 1
  | .env => 2
  | .var => 3
  | .const => 4
  | .none => 5

/-- `enum EnvironmentType` with its discriminants. -/
inductive EnvironmentType where
  | caller | origin | now | blockNumber | address | unknown
deriving DecidableEq, Repr

/-- The numeric value of an `EnvironmentType` (the `as u32` cast). -/
def EnvironmentType.code : EnvironmentType → Nat
  | .caller => 0
  | .origin => 1
  | .now => 2
  | .blockNumber => 3
  | .address => 4
  | .unknown => 5

/-- `struct ConflictInfo`. `selector` and `value` are `u32` values, kept as
`Nat` (< 2^32 whenever produced by the parsers below). -/
structure ConflictInfo where
  kind : ConflictType
  selector : Nat
  slot : String
  value : Option Nat
deriving DecidableEq, Repr

/-- Serialization of a `ConflictInfo` per its serde attributes: fields in
declaration order, `selector` always skipped (`skip_serializing`), `value`
skipped exactly when it is `None` (`skip_serializing_if = "Option::is_none"`). -/
def serializeConflictInfo (c : ConflictInfo) : Json :=
  .obj ([("kind", .num c.kind.code), ("slot", .str c.slot)] ++
    (match c.value with
     | some v => [("value", Json.num (v : Int))]
     | none => []))

/-! ### Numeric string parsing (`u32::from_str_radix`, `str::parse::<u32>`) -/

/-- Value of a character as a digit in the given radix, per
`char::to_digit`. -/
def charDigit (radix : Nat) (c : Char) : Option Nat :=
  let n :=
    if '0' ≤ c ∧ c ≤ '9' then some (c.toNat - '0'.toNat)
    else if 'a' ≤ c ∧ c ≤ 'z' then some (c.toNat - 'a'.toNat + 10)
    else if 'A' ≤ c ∧ c ≤ 'Z' then some (c.toNat - 'A'.toNat + 10)
    else none
  match n with
  | some d => if d < radix then some d else none
  | none => none

/-- Digit-accumulation loop of integer parsing, failing on a non-digit and on
overflow past `u32::MAX` (as `from_str_radix` does for `u32`). -/
def parseDigits (radix : Nat) : List Char → Nat → Option Nat
  | [], acc => some acc
  | c :: rest, acc =>
      match charDigit radix c with
      | some d =>
          let acc' := acc * radix + d
          if acc' < 2 ^ 32 then parseDigits radix rest acc' else Option.none
      | none => Option.none

/-- `u32::from_str_radix(s, radix)`: optional leading sign, then at least one
digit, no overflow. -/
def fromStrRadix (radix : Nat) (s : String) : Option Nat :=
  let cs := s.toList
  let cs := match cs with
    | '+' :: rest => rest
    | '-' :: _ => []   -- a `-` makes the u32 parse fail; model as no digits
    | _ => cs
  match cs with
  | [] => none
  | _ => parseDigits radix cs 0

/-- `str::trim_start_matches("0x")`: repeatedly strips a leading `"0x"`. -/
def trimStart0x (s : String) : String :=
  go s.toList |>.asString
where
  go : List Char → List Char
    | '0' :: 'x' :: rest => go rest
    | cs => cs

/-- Parsing of a selector column:
`u32::from_str_radix(field.trim_start_matches("0x"), 16)`. -/
def parseSelector (s : String) : Option Nat :=
  fromStrRadix 16 (trimStart0x s)

/-! ### The slot regex `0x(\d+)`

`slot_re.find(text)` returns the leftmost match of the whole pattern;
`.as_str()` is the full matched substring — *including* the `0x` prefix
(`find` ignores the capture group). -/

/-- ASCII decimal digit test (`\d` on the program's machine-generated ASCII
input). -/
def isDigitChar (c : Char) : Bool := '0' ≤ c ∧ c ≤ '9'

/-- Maximal leading run of digits of a character list, with the rest. -/
def takeDigits : List Char → List Char × List Char
  | [] => ([], [])
  | c :: rest =>
      if isDigitChar c then (c :: (takeDigits rest).1, (takeDigits rest).2)
      else ([], c :: rest)

/-- Leftmost match of the regex `0x(\d+)` in a character list, returned as
the full matched substring (`Match::as_str`). -/
def findSlotMatch : List Char → Option (List Char)
  | [] => none
  | '0' :: 'x' :: rest =>
      match takeDigits rest with
      | ([], _) => findSlotMatch ('x' :: rest)
      | (ds, _) => some ('0' :: 'x' :: ds)
  | _ :: rest => findSlotMatch rest

/-- `slot_re.find(text).unwrap().as_str().to_string()`. -/
def findSlot (s : String) : Option String :=
  (findSlotMatch s.toList).map List.asString

/-! ### `parse_conflict_info`

Each CSV file is modelled as a list of already-split rows (the `csv` crate
with `has_headers(false)`, tab delimiter); `record[i]` panics when the field
is out of range, modelled by `List.get?`. -/

/-- Fallible map over a list, short-circuiting on the first failure: the
shape of every `for`-loop-with-`unwrap` and of `collect` on fallible
iterators in the source. -/
def optionMap (f : α → Option β) : List α → Option (List β)
  | [] => some []
  | a :: l => do
      let b ← f a
      let bs ← optionMap f l
      pure (b :: bs)

/-- The `match record[2].as_ref()` arm of the Env loop, paired with the
`error!` line it logs (empty for the five known tokens). -/
def classifyEnvToken (t : String) : EnvironmentType × List String :=
  if t = "CALLER" then (.caller, [])
  else if t = "ORIGIN" then (.origin, [])
  else if t = "TIMESTAMP" then (.now, [])
  else if t = "NUMBER" then (.blockNumber, [])
  else if t = "ADDRESS" then (.address, [])
  else (.unknown, ["Unknown environment type: " ++ t])

/-- One row of `Conflict_EnvConflict.csv` (first loop of
`parse_conflict_info`). -/
def parseEnvRow (row : List String) : Option (ConflictInfo × List String) := do
  let selField ← row.get? 1
  let selector ← parseSelector selField
  let tokenField ← row.get? 2
  let value := (classifyEnvToken tokenField).1
  let warns := (classifyEnvToken tokenField).2
  let slotField ← row.get? 3
  let slot ← findSlot slotField
  pure (⟨.env, selector, slot, some value.code⟩, warns)

/-- All Env rows in order, concatenating warnings. -/
def parseEnvRows : List (List String) → Option (List ConflictInfo × List String)
  | [] => some ([], [])
  | row :: rest => do
      let p ← parseEnvRow row
      let q ← parseEnvRows rest
      pure (p.1 :: q.1, p.2 ++ q.2)

/-- One row of `Conflict_FunArgConflict.csv`: column 2 is
`record[2].parse::<u32>()` (plain decimal). -/
def parseVarRow (row : List String) : Option ConflictInfo := do
  let selField ← row.get? 1
  let selector ← parseSelector selField
  let valField ← row.get? 2
  let value ← fromStrRadix 10 valField
  let slotField ← row.get? 3
  let slot ← findSlot slotField
  pure ⟨.var, selector, slot, some value⟩

/-- One row of `Conflict_ConsConflict.csv`: `record[2].parse::<String>()`
never fails, so the slot is the column verbatim. -/
def parseConstRow (row : List String) : Option ConflictInfo := do
  let selField ← row.get? 1
  let selector ← parseSelector selField
  let slot ← row.get? 2
  pure ⟨.const, selector, slot, Option.none⟩

/-- One row of `Conflict_NoConflict.csv`: the selector is in column 0 and the
slot is set to the empty string. -/
def parseNoneRow (row : List String) : Option ConflictInfo := do
  let selField ← row.get? 0
  let selector ← parseSelector selField
  pure ⟨.none, selector, "", Option.none⟩

/-- `parse_conflict_info`, over the four files' rows. The result pairs the
record list (Env rows, then Var, then Const, then None) with the warning
lines logged on the way; `none` models a panic (any `unwrap` failure). -/
def parse_conflict_info (envRows varRows constRows noneRows : List (List String)) :
    Option (List ConflictInfo × List String) := do
  let envs ← parseEnvRows envRows
  let vars ← optionMap parseVarRow varRows
  let consts ← optionMap parseConstRow constRows
  let nones ← optionMap parseNoneRow noneRows
  pure (envs.1 ++ vars ++ consts ++ nones, envs.2)

/-! ### `get_method_signature` -/

/-- Rendering of one entry of `inputs` inside `get_method_signature`: the
`type` string verbatim, except that the literal `tuple` becomes the
parenthesized comma-joined `type` strings of its immediate `components`. -/
def renderInput (input : Json) : Option String := do
  let ty ← (input.index "type").asStr
  if ty = "tuple" then
    let comps ← (input.index "components").asArr
    let ctys ← optionMap (fun c => (c.index "type").asStr) comps
    pure ("(" ++ String.intercalate "," ctys ++ ")")
  else
    pure ty

/-- `get_method_signature`: the `Map` indexings `method["name"]` /
`method["inputs"]` panic when the key is absent (`none` here), as do the
`as_str`/`as_array` unwraps; the outer loop writes a comma before every input
but the first and the inner tuple loop a comma after every component but the
last, both equivalent to comma-intercalation. -/
def get_method_signature (method : List (String × Json)) : Option String := do
  let nameV ← jlookup method "name"
  let name ← nameV.asStr
  let inputsV ← jlookup method "inputs"
  let inputs ← inputsV.asArr
  let rendered ← optionMap renderInput inputs
  pure (name ++ "(" ++ String.intercalate "," rendered ++ ")")

/-! ### Keccak-256 (the `sha3::Keccak256` digest used in standard mode)

Standard Keccak-f[1600] sponge with rate 136 and the original Keccak padding
byte `0x01`. Lanes are 64-bit values kept as `Nat` masked to 64 bits; the
state is a 25-lane list indexed `x + 5*y`. -/

def mask64 : Nat := 0xFFFFFFFFFFFFFFFF

/-- 64-bit left rotation. -/
def rotl64 (x n : Nat) : Nat :=
  ((x <<< n) ||| (x >>> (64 - n))) &&& mask64

/-- θ step. -/
def keccakTheta (s : List Nat) : List Nat :=
  let c := (List.range 5).map (fun x =>
    s.getD x 0 ^^^ s.getD (x + 5) 0 ^^^ s.getD (x + 10) 0 ^^^
      s.getD (x + 15) 0 ^^^ s.getD (x + 20) 0)
  let d := (List.range 5).map (fun x =>
    c.getD ((x + 4) % 5) 0 ^^^ rotl64 (c.getD ((x + 1) % 5) 0) 1)
  (List.range 25).map (fun i => s.getD i 0 ^^^ d.getD (i % 5) 0)

/-- Rotation offsets `r[x][y]`, one row per `y`, laid out at `x + 5*y`. -/
def rhoOffsets : List Nat :=
  [[0, 1, 62, 28, 27],
   [36, 44, 6, 55, 20],
   [3, 10, 43, 25, 39],
   [41, 45, 15, 21, 8],
   [18, 2, 61, 56, 14]].flatten

/-- Combined ρ and π steps: `B[y, 2x+3y] = rotl(A[x, y], r[x, y])`. -/
def keccakRhoPi (s : List Nat) : List Nat :=
  (List.range 25).foldl
    (fun b i =>
      let x := i % 5
      let y := i / 5
      b.set (y + 5 * ((2 * x + 3 * y) % 5)) (rotl64 (s.getD i 0) (rhoOffsets.getD i 0)))
    (List.replicate 25 0)

/-- χ step. -/
def keccakChi (b : List Nat) : List Nat :=
  (List.range 25).map (fun i =>
    let x := i % 5
    let y := i / 5
    b.getD i 0 ^^^ ((b.getD ((x + 1) % 5 + 5 * y) 0 ^^^ mask64) &&& b.getD ((x + 2) % 5 + 5 * y) 0))

/-- ι round constants. -/
def keccakRC : List Nat :=
  [0x0000000000000001, 0x0000000000008082, 0x800000000000808a, 0x8000000080008000,
   0x000000000000808b, 0x0000000080000001, 0x8000000080008081, 0x8000000000008009,
   0x000000000000008a, 0x0000000000000088, 0x0000000080008009, 0x000000008000000a,
   0x000000008000808b, 0x800000000000008b, 0x8000000000008089, 0x8000000000008003,
   0x8000000000008002, 0x8000000000000080, 0x000000000000800a, 0x800000008000000a,
   0x8000000080008081, 0x8000000000008080, 0x0000000080000001, 0x8000000080008008]

/-- Keccak-f[1600]: 24 rounds of θ, ρπ, χ, ι. -/
def keccakF (s : List Nat) : List Nat :=
  keccakRC.foldl
    (fun s rc =>
      let s := keccakChi (keccakRhoPi (keccakTheta s))
      s.set 0 (s.getD 0 0 ^^^ rc))
    s

/-- Original Keccak `pad10*1` with domain byte `0x01` at rate 136. -/
def keccakPad (msg : List Nat) : List Nat :=
  let q := 136 - msg.length % 136
  if q = 1 then msg ++ [0x81]
  else msg ++ [0x01] ++ List.replicate (q - 2) 0 ++ [0x80]

/-- A little-endian 64-bit lane from up to 8 bytes. -/
def bytesToLane (bs : List Nat) : Nat :=
  bs.foldr (fun b acc => acc * 256 + b) 0

/-- The 8 little-endian bytes of a 64-bit lane. -/
def laneToBytesLE (lane : Nat) : List Nat :=
  (List.range 8).map (fun i => (lane >>> (8 * i)) % 256)

/-- Absorption of one 136-byte block into the state. -/
def keccakAbsorbBlock (s : List Nat) (block : List Nat) : List Nat :=
  keccakF ((List.range 25).map (fun i =>
    s.getD i 0 ^^^ (if i < 17 then bytesToLane ((block.drop (8 * i)).take 8) else 0)))

/-- Keccak-256 of a byte sequence: 32-byte digest. -/
def keccak256 (msg : List Nat) : List Nat :=
  let padded := keccakPad msg
  let s := (List.range (padded.length / 136)).foldl
    (fun s bi => keccakAbsorbBlock s ((padded.drop (136 * bi)).take 136))
    (List.replicate 25 0)
  ((List.range 4).map (fun i => laneToBytesLE (s.getD i 0))).flatten

/-! ### SM3 (the `libsm::sm3` digest used in GM mode)

GB/T 32905-2016: Merkle–Damgård over 512-bit blocks, big-endian, 256-bit
state; words are 32-bit values kept as `Nat` masked to 32 bits. -/

def mask32 : Nat := 0xFFFFFFFF

/-- 32-bit left rotation (rotation amount taken mod 32). -/
def rotl32 (x n : Nat) : Nat :=
  ((x <<< (n % 32)) ||| (x >>> (32 - n % 32))) &&& mask32

/-- Permutation P0. -/
def sm3P0 (x : Nat) : Nat := x ^^^ rotl32 x 9 ^^^ rotl32 x 17

/-- Permutation P1. -/
def sm3P1 (x : Nat) : Nat := x ^^^ rotl32 x 15 ^^^ rotl32 x 23

/-- Round constant T_j. -/
def sm3T (j : Nat) : Nat := if j < 16 then 0x79cc4519 else 0x7a879d8a

/-- Boolean function FF_j. -/
def sm3FF (j x y z : Nat) : Nat :=
  if j < 16 then x ^^^ y ^^^ z else (x &&& y) ||| (x &&& z) ||| (y &&& z)

/-- Boolean function GG_j. -/
def sm3GG (j x y z : Nat) : Nat :=
  if j < 16 then x ^^^ y ^^^ z else (x &&& y) ||| ((x ^^^ mask32) &&& z)

/-- SM3 initial value. -/
def sm3IV : List Nat :=
  [0x7380166f, 0x4914b2b9, 0x172442d7, 0xda8a0600,
   0xa96f30bc, 0x163138aa, 0xe38dee4d, 0xb0fb0e4e]

/-- Big-endian 32-bit word from 4 bytes. -/
def wordFromBytesBE (bs : List Nat) : Nat :=
  bs.foldl (fun acc b => acc * 256 + b) 0

/-- The 4 big-endian bytes of a 32-bit word. -/
def wordToBytesBE (w : Nat) : List Nat :=
  [(w >>> 24) % 256, (w >>> 16) % 256, (w >>> 8) % 256, w % 256]

/-- One step of message expansion, appending W_j for `j = ws.length`. -/
def sm3ExpandStep (ws : List Nat) : List Nat :=
  let j := ws.length
  let g := fun k => ws.getD (j - k) 0
  ws ++ [sm3P1 (g 16 ^^^ g 9 ^^^ rotl32 (g 3) 15) ^^^ rotl32 (g 13) 7 ^^^ g 6]

/-- Expanded message words W_0 … W_67 of one 64-byte block. -/
def sm3Expand (block : List Nat) : List Nat :=
  let w16 := (List.range 16).map (fun i => wordFromBytesBE ((block.drop (4 * i)).take 4))
  (List.range 52).foldl (fun ws _ => sm3ExpandStep ws) w16

/-- One round of the compression function on registers `[a,b,c,d,e,f,g,h]`. -/
def sm3Round (w w' : List Nat) (regs : List Nat) (j : Nat) : List Nat :=
  let a := regs.getD 0 0
  let b := regs.getD 1 0
  let c := regs.getD 2 0
  let d := regs.getD 3 0
  let e := regs.getD 4 0
  let f := regs.getD 5 0
  let g := regs.getD 6 0
  let h := regs.getD 7 0
  let ss1 := rotl32 ((rotl32 a 12 + e + rotl32 (sm3T j) (j % 32)) &&& mask32) 7
  let ss2 := ss1 ^^^ rotl32 a 12
  let tt1 := (sm3FF j a b c + d + ss2 + w'.getD j 0) &&& mask32
  let tt2 := (sm3GG j e f g + h + ss1 + w.getD j 0) &&& mask32
  [tt1, a, rotl32 b 9, c, sm3P0 tt2, e, rotl32 f 19, g]

/-- Compression function CF: one 64-byte block folded into the state. -/
def sm3Compress (v : List Nat) (block : List Nat) : List Nat :=
  let w := sm3Expand block
  let w' := (List.range 64).map (fun j => w.getD j 0 ^^^ w.getD (j + 4) 0)
  let regs := (List.range 64).foldl (sm3Round w w') v
  (List.range 8).map (fun i => v.getD i 0 ^^^ regs.getD i 0)

/-- SM3 padding: `0x80`, zeros, then the 64-bit big-endian bit length. -/
def sm3Pad (msg : List Nat) : List Nat :=
  let k := (64 - (msg.length + 9) % 64) % 64
  let bitLen := 8 * msg.length
  msg ++ [0x80] ++ List.replicate k 0 ++
    (List.range 8).map (fun i => (bitLen >>> (8 * (7 - i))) % 256)

/-- SM3 of a byte sequence: 32-byte digest. -/
def sm3 (msg : List Nat) : List Nat :=
  let padded := sm3Pad msg
  let v := (List.range (padded.length / 64)).foldl
    (fun v bi => sm3Compress v ((padded.drop (64 * bi)).take 64))
    sm3IV
  (v.map wordToBytesBE).flatten

/-! ### `get_method_id` -/

/-- UTF-8 encoding of one code point. -/
def utf8EncodeChar (n : Nat) : List Nat :=
  if n < 0x80 then [n]
  else if n < 0x800 then [0xC0 ||| (n >>> 6), 0x80 ||| (n &&& 0x3F)]
  else if n < 0x10000 then
    [0xE0 ||| (n >>> 12), 0x80 ||| ((n >>> 6) &&& 0x3F), 0x80 ||| (n &&& 0x3F)]
  else
    [0xF0 ||| (n >>> 18), 0x80 ||| ((n >>> 12) &&& 0x3F),
     0x80 ||| ((n >>> 6) &&& 0x3F), 0x80 ||| (n &&& 0x3F)]

/-- `signature.as_bytes()`: the UTF-8 bytes of the string. -/
def utf8Bytes (s : String) : List Nat :=
  (s.toList.map (fun c => utf8EncodeChar c.toNat)).flatten

/-- `u32::from_be_bytes` on 4 bytes. -/
def u32FromBeBytes (bs : List Nat) : Nat :=
  bs.foldl (fun acc b => acc * 256 + b) 0

/-- `get_method_id`: first 4 digest bytes, big-endian, SM3 when `gm`,
Keccak-256 otherwise. -/
def get_method_id (signature : String) (gm : Bool) : Nat :=
  if gm then u32FromBeBytes ((sm3 (utf8Bytes signature)).take 4)
  else u32FromBeBytes ((keccak256 (utf8Bytes signature)).take 4)

/-! ### The annotation pass (`main`'s `for_each` closure and pipeline) -/

/-- The guard
`method.contains_key("name") && method.contains_key("type") && method["type"] == Value::String("function")`
(the `&&` short-circuit makes the `Map` index safe). -/
def isFunctionEntry (method : List (String × Json)) : Bool :=
  jcontains method "name" && jcontains method "type" &&
    (match jlookup method "type" with
     | some (Json.str t) => t = "function"
     | _ => false)

/-- One iteration of `main`'s `for_each`: `none` models a panic
(non-object entry, or an `unwrap` inside `get_method_signature`). When the
filtered conflict list is non-empty a `conflictFields` key is inserted;
otherwise the entry is returned unchanged. -/
def processEntry (entry : Json) (conflicts : List ConflictInfo) (gm : Bool) :
    Option Json := do
  let method ← entry.asObj
  if isFunctionEntry method then
    let signature ← get_method_signature method
    let method_id := get_method_id signature gm
    let method_conflicts := conflicts.filter (fun c => c.selector == method_id)
    if method_conflicts.length ≠ 0 then
      pure (Json.obj (jinsert method "conflictFields"
        (Json.arr (method_conflicts.map serializeConflictInfo))))
    else
      pure (Json.obj method)
  else
    pure (Json.obj method)

/-- The whole run of `main` after argument parsing: `abiDoc` is the result of
`fs::read_to_string` + `serde_json::from_str` on the ABI file (`none` =
unreadable file or malformed JSON, both fatal); the row lists are the four
CSV files' contents. The returned document is what gets written back to the
ABI path; `none` models an abort before the write (no output is produced). -/
def runMain (abiDoc : Option Json)
    (envRows varRows constRows noneRows : List (List String)) (gm : Bool) :
    Option Json := do
  let abi ← abiDoc
  let cw ← parse_conflict_info envRows varRows constRows noneRows
  let entries ← abi.asArr
  let processed ← optionMap (fun e => processEntry e cw.1 gm) entries
  pure (Json.arr processed)

/-! ### Spec-side definitions (used only to state refinement claims)

A typed, well-formed method parameter as §3/§4.2 of the spec describe it:
a declared type string and, for tuples, the immediate components' type
strings (one level deep). -/

/-- A well-formed ABI input parameter, as the spec's data model describes
it. -/
structure SpecInput where
  ty : String
  comps : List String
deriving DecidableEq, Repr

/-- Modelled from the spec (§4.2): the rendering of one parameter — its type
string verbatim, unless it is exactly `tuple`, in which case the
parenthesized comma-joined component type strings. -/
def specRenderInput (i : SpecInput) : String :=
  if i.ty = "tuple" then "(" ++ String.intercalate "," i.comps ++ ")" else i.ty

/-- Modelled from the spec (§4.2): the canonical signature
`name(type1,type2,...)`, no whitespace, bare-comma joined, `name()` when
`inputs` is empty. -/
def specSignature (name : String) (inputs : List SpecInput) : String :=
  name ++ "(" ++ String.intercalate "," (inputs.map specRenderInput) ++ ")"

/-- The JSON shape of a well-formed input parameter. -/
def specInputToJson (i : SpecInput) : Json :=
  if i.ty = "tuple" then
    .obj [("type", .str i.ty),
          ("components", .arr (i.comps.map (fun c => Json.obj [("type", Json.str c)])))]
  else
    .obj [("type", .str i.ty)]

/-- The JSON object of a well-formed function-typed ABI method entry. -/
def jsonMethod (name : String) (inputs : List SpecInput) : List (String × Json) :=
  [("name", .str name), ("type", .str "function"),
   ("inputs", .arr (inputs.map specInputToJson))]

/-- Whether a serialized JSON value is an object carrying the given key. -/
def hasKey (j : Json) (key : String) : Bool :=
  match j with
  | .obj kvs => jcontains kvs key
  | _ => false

/-! ## Lemmas -/

theorem jlookup_jinsert (kvs : List (String × Json)) (key k : String) (v : Json) :
    jlookup (jinsert kvs key v) k = if key = k then some v else jlookup kvs k := by
  induction kvs with
  | nil => simp [jinsert, jlookup]
  | cons kv rest ih =>
      obtain ⟨k', w⟩ := kv
      by_cases h1 : k' = key
      · subst h1
        by_cases h2 : k' = k <;> simp [jinsert, jlookup, h2]
      · by_cases h2 : k' = k
        · subst h2
          have hk : ¬(key = k') := fun hh => h1 hh.symm
          simp [jinsert, jlookup, h1, hk]
        · simp [jinsert, jlookup, h1, h2, ih]

theorem optionMap_nil (f : α → Option β) : optionMap f [] = some [] := rfl

theorem optionMap_cons (f : α → Option β) (a : α) (l : List α) :
    optionMap f (a :: l) = (f a).bind (fun b => (optionMap f l).map (b :: ·)) := by
  simp [optionMap, Option.bind, Option.map]
  cases f a <;> simp
  cases optionMap f l <;> simp

theorem optionMap_map_eq_some (f : α → β) (g : β → Option γ) (h : α → γ)
    (H : ∀ a, g (f a) = some (h a)) (l : List α) :
    optionMap g (l.map f) = some (l.map h) := by
  induction l with
  | nil => rfl
  | cons a l ih => simp [optionMap_cons, H, ih]

theorem optionMap_mem (f : α → Option β) (l : List α) (ys : List β)
    (hmap : optionMap f l = some ys) (y : β) (hy : y ∈ ys) :
    ∃ x, x ∈ l ∧ f x = some y := by
  induction l generalizing ys with
  | nil =>
      simp [optionMap] at hmap
      subst hmap
      simp at hy
  | cons a l ih =>
      rw [optionMap_cons] at hmap
      cases ha : f a with
      | none => simp [ha] at hmap
      | some b =>
          cases hl : optionMap f l with
          | none => simp [ha, hl] at hmap
          | some bs =>
              simp [ha, hl] at hmap
              subst hmap
              rcases List.mem_cons.mp hy with rfl | hmem
              · exact ⟨a, List.mem_cons_self a l, ha⟩
              · obtain ⟨x, hx, hfx⟩ := ih bs hl hmem
                exact ⟨x, List.mem_cons_of_mem a hx, hfx⟩

theorem optionMap_components (cs : List String) :
    optionMap (fun c => (Json.index c "type").asStr)
      (cs.map (fun c => Json.obj [("type", Json.str c)])) = some cs := by
  induction cs with
  | nil => rfl
  | cons c cs ih =>
      simp only [List.map_cons, optionMap, ih]
      rfl

theorem renderInput_specInput (i : SpecInput) :
    renderInput (specInputToJson i) = some (specRenderInput i) := by
  have h1 : (Json.index (specInputToJson i) "type").asStr = some i.ty := by
    by_cases h : i.ty = "tuple" <;>
      simp [specInputToJson, h, Json.index, jlookup, Json.asStr]
  by_cases h : i.ty = "tuple"
  · have h2 : (Json.index (specInputToJson i) "components").asArr =
        some (i.comps.map (fun c => Json.obj [("type", Json.str c)])) := by
      simp [specInputToJson, h, Json.index, jlookup, Json.asArr]
    simp [renderInput, h1, h2, h, specRenderInput, optionMap_components]
  · simp [renderInput, h1, h, specRenderInput]

theorem get_method_signature_jsonMethod (name : String) (inputs : List SpecInput) :
    get_method_signature (jsonMethod name inputs) = some (specSignature name inputs) := by
  simp [get_method_signature, jsonMethod, jlookup, Json.asStr, Json.asArr, specSignature,
    optionMap_map_eq_some specInputToJson renderInput specRenderInput renderInput_specInput inputs]

theorem laneToBytesLE_length (x : Nat) : (laneToBytesLE x).length = 8 := by
  simp [laneToBytesLE]

theorem laneToBytesLE_lt (x : Nat) : ∀ b ∈ laneToBytesLE x, b < 256 := by
  simp only [laneToBytesLE, List.mem_map, List.mem_range]
  rintro b ⟨i, _, rfl⟩
  exact Nat.mod_lt _ (by norm_num)

theorem length_flatten_map (f : Nat → List Nat) (c : Nat) (hf : ∀ w, (f w).length = c) :
    ∀ v : List Nat, ((v.map f).flatten).length = c * v.length := by
  intro v
  induction v with
  | nil => simp
  | cons w v ih =>
      simp only [List.map_cons, List.flatten_cons, List.length_append, hf, ih,
        List.length_cons]
      ring

theorem keccak256_length (msg : List Nat) : (keccak256 msg).length = 32 := by
  simp only [keccak256, List.length_flatten, show List.range 4 = [0, 1, 2, 3] from rfl,
    List.map_cons, List.map_nil, laneToBytesLE_length, List.sum_cons, List.sum_nil]
  norm_num

theorem keccak256_bytes_lt (msg : List Nat) : ∀ b ∈ keccak256 msg, b < 256 := by
  intro b hb
  simp only [keccak256, List.mem_flatten, List.mem_map, List.mem_range] at hb
  obtain ⟨l, ⟨i, _, rfl⟩, hbl⟩ := hb
  exact laneToBytesLE_lt _ b hbl

theorem wordToBytesBE_length (w : Nat) : (wordToBytesBE w).length = 4 := by
  simp [wordToBytesBE]

theorem wordToBytesBE_lt (w : Nat) : ∀ b ∈ wordToBytesBE w, b < 256 := by
  simp only [wordToBytesBE, List.mem_cons, List.not_mem_nil, or_false]
  rintro b (rfl | rfl | rfl | rfl) <;> exact Nat.mod_lt _ (by norm_num)

theorem sm3Compress_length (v block : List Nat) : (sm3Compress v block).length = 8 := by
  simp [sm3Compress]

theorem foldl_length8 (g : List Nat → Nat → List Nat)
    (hg : ∀ v a, (g v a).length = 8) :
    ∀ (l : List Nat) (v : List Nat), v.length = 8 → (l.foldl g v).length = 8
  | [], _, hv => hv
  | a :: l, v, _ => foldl_length8 g hg l (g v a) (hg v a)

theorem sm3_length (msg : List Nat) : (sm3 msg).length = 32 := by
  simp only [sm3]
  rw [length_flatten_map wordToBytesBE 4 wordToBytesBE_length,
    foldl_length8 _ (fun v a => sm3Compress_length _ _) _ _ (by simp [sm3IV])]

theorem sm3_bytes_lt (msg : List Nat) : ∀ b ∈ sm3 msg, b < 256 := by
  intro b hb
  simp only [sm3, List.mem_flatten, List.mem_map] at hb
  obtain ⟨l, ⟨w, _, rfl⟩, hbl⟩ := hb
  exact wordToBytesBE_lt _ b hbl

theorem foldl_mul256_lt (bs : List Nat) :
    ∀ a, (∀ b ∈ bs, b < 256) →
      bs.foldl (fun acc b => acc * 256 + b) a < (a + 1) * 256 ^ bs.length := by
  induction bs with
  | nil => intro a _; simp
  | cons b bs ih =>
      intro a hb
      simp only [List.foldl_cons, List.length_cons]
      have hblt : b < 256 := hb b (by simp)
      calc bs.foldl (fun acc b => acc * 256 + b) (a * 256 + b)
          < (a * 256 + b + 1) * 256 ^ bs.length := ih _ (fun x hx => hb x (by simp [hx]))
        _ ≤ ((a + 1) * 256) * 256 ^ bs.length := by
            exact Nat.mul_le_mul_right _ (by omega)
        _ = (a + 1) * 256 ^ (bs.length + 1) := by ring

theorem u32FromBeBytes_lt (bs : List Nat) (h : ∀ b ∈ bs, b < 256) :
    u32FromBeBytes bs < 256 ^ bs.length := by
  simpa [u32FromBeBytes] using foldl_mul256_lt bs 0 h

theorem u32FromBeBytes_take4 (d : List Nat) (hd : 4 ≤ d.length) :
    u32FromBeBytes (d.take 4) =
      d.getD 0 0 * 2 ^ 24 + d.getD 1 0 * 2 ^ 16 + d.getD 2 0 * 2 ^ 8 + d.getD 3 0 := by
  rcases d with _ | ⟨b0, d⟩
  · simp at hd
  rcases d with _ | ⟨b1, d⟩
  · simp at hd
  rcases d with _ | ⟨b2, d⟩
  · simp at hd
  rcases d with _ | ⟨b3, d⟩
  · simp at hd
  simp [u32FromBeBytes, List.getD]
  ring

theorem serialize_no_selector (c : ConflictInfo) :
    hasKey (serializeConflictInfo c) "selector" = false := by
  cases hv : c.value <;>
    simp [serializeConflictInfo, hasKey, jcontains, jlookup, hv]

theorem serialize_value_key (c : ConflictInfo) :
    hasKey (serializeConflictInfo c) "value" = c.value.isSome := by
  cases hv : c.value <;>
    simp [serializeConflictInfo, hasKey, jcontains, jlookup, hv]

theorem serialize_slot_key (c : ConflictInfo) :
    hasKey (serializeConflictInfo c) "slot" = true := by
  cases hv : c.value <;>
    simp [serializeConflictInfo, hasKey, jcontains, jlookup, hv]

theorem serialize_slot_value (c : ConflictInfo) :
    (serializeConflictInfo c).index "slot" = Json.str c.slot := by
  cases hv : c.value <;>
    simp [serializeConflictInfo, Json.index, jlookup, hv]

theorem parseEnvRow_kind_value (row : List String) (c : ConflictInfo) (w : List String)
    (h : parseEnvRow row = some (c, w)) :
    c.kind = ConflictType.env ∧ c.value.isSome = true := by
  simp only [parseEnvRow, Option.bind_eq_bind', Option.bind_eq_some, Option.pure_def,
    Option.some.injEq] at h
  obtain ⟨sel, h1, selN, h2, token, h3, text, h4, slot, h5, hcw⟩ := h
  obtain ⟨hc, hw⟩ := Prod.mk.injEq .. |>.mp hcw
  subst hc
  simp

theorem parseVarRow_kind_value (row : List String) (c : ConflictInfo)
    (h : parseVarRow row = some c) :
    c.kind = ConflictType.var ∧ c.value.isSome = true := by
  simp only [parseVarRow, Option.bind_eq_bind', Option.bind_eq_some, Option.pure_def,
    Option.some.injEq] at h
  obtain ⟨sel, h1, selN, h2, valS, h3, val, h4, text, h5, slot, h6, hc⟩ := h
  subst hc
  simp

theorem parseConstRow_kind_value (row : List String) (c : ConflictInfo)
    (h : parseConstRow row = some c) :
    c.kind = ConflictType.const ∧ c.value = Option.none := by
  simp only [parseConstRow, Option.bind_eq_bind', Option.bind_eq_some, Option.pure_def,
    Option.some.injEq] at h
  obtain ⟨sel, h1, selN, h2, slot, h3, hc⟩ := h
  subst hc
  simp

theorem parseNoneRow_shape (row : List String) (c : ConflictInfo)
    (h : parseNoneRow row = some c) :
    c.kind = ConflictType.none ∧ c.value = Option.none ∧ c.slot = "" := by
  simp only [parseNoneRow, Option.bind_eq_bind', Option.bind_eq_some, Option.pure_def,
    Option.some.injEq] at h
  obtain ⟨sel, h1, selN, h2, hc⟩ := h
  subst hc
  simp

theorem parseEnvRows_mem :
    ∀ (rows : List (List String)) (cs : List ConflictInfo) (ws : List String),
      parseEnvRows rows = some (cs, ws) → ∀ c ∈ cs,
        ∃ row w, parseEnvRow row = some (c, w) := by
  intro rows
  induction rows with
  | nil =>
      intro cs ws h c hc
      simp [parseEnvRows] at h
      obtain ⟨rfl, rfl⟩ := h
      simp at hc
  | cons row rest ih =>
      intro cs ws h c hc
      simp only [parseEnvRows, Option.bind_eq_bind', Option.bind_eq_some, Option.pure_def,
        Option.some.injEq] at h
      obtain ⟨⟨c1, w1⟩, h1, ⟨cs1, ws1⟩, h2, hcw⟩ := h
      obtain ⟨hcs, hws⟩ := Prod.mk.injEq .. |>.mp hcw
      subst hcs
      rcases List.mem_cons.mp hc with rfl | hmem
      · exact ⟨row, w1, h1⟩
      · exact ih cs1 ws1 h2 c hmem

theorem parse_conflict_info_eq (e v cf n : List (List String))
    (envs : List ConflictInfo) (ws : List String)
    (vars consts nones : List ConflictInfo)
    (h1 : parseEnvRows e = some (envs, ws))
    (h2 : optionMap parseVarRow v = some vars)
    (h3 : optionMap parseConstRow cf = some consts)
    (h4 : optionMap parseNoneRow n = some nones) :
    parse_conflict_info e v cf n = some (envs ++ vars ++ consts ++ nones, ws) := by
  simp [parse_conflict_info, h1, h2, h3, h4]

theorem parse_conflict_info_inv (e v cf n : List (List String))
    (records : List ConflictInfo) (ws : List String)
    (h : parse_conflict_info e v cf n = some (records, ws)) :
    ∃ envs ws0 vars consts nones,
      parseEnvRows e = some (envs, ws0) ∧
      optionMap parseVarRow v = some vars ∧
      optionMap parseConstRow cf = some consts ∧
      optionMap parseNoneRow n = some nones ∧
      records = envs ++ vars ++ consts ++ nones ∧ ws = ws0 := by
  simp only [parse_conflict_info, Option.bind_eq_bind', Option.bind_eq_some, Option.pure_def,
    Option.some.injEq] at h
  obtain ⟨⟨envs, ws0⟩, h1, vars, h2, consts, h3, nones, h4, hcw⟩ := h
  obtain ⟨hrec, hws⟩ := Prod.mk.injEq .. |>.mp hcw
  exact ⟨envs, ws0, vars, consts, nones, h1, h2, h3, h4, hrec.symm, hws.symm⟩

theorem parseEnvRow_forward (x sel t text : String) (s : Nat) (m : String)
    (hs : parseSelector sel = some s) (hm : findSlot text = some m) :
    parseEnvRow [x, sel, t, text] =
      some (⟨.env, s, m, some (classifyEnvToken t).1.code⟩, (classifyEnvToken t).2) := by
  simp [parseEnvRow, hs, hm, List.get?]

theorem isFunctionEntry_jsonMethod (name : String) (inputs : List SpecInput) :
    isFunctionEntry (jsonMethod name inputs) = true := rfl

theorem processEntry_skip (kvs : List (String × Json)) (conflicts : List ConflictInfo)
    (gm : Bool) (h : isFunctionEntry kvs = false) :
    processEntry (.obj kvs) conflicts gm = some (.obj kvs) := by
  simp [processEntry, Json.asObj, h]

theorem processEntry_function (kvs : List (String × Json)) (conflicts : List ConflictInfo)
    (gm : Bool) (sig : String)
    (hfn : isFunctionEntry kvs = true) (hsig : get_method_signature kvs = some sig) :
    processEntry (.obj kvs) conflicts gm =
      some (.obj
        (if (conflicts.filter (fun c => c.selector == get_method_id sig gm)).length ≠ 0 then
          jinsert kvs "conflictFields"
            (.arr ((conflicts.filter (fun c => c.selector == get_method_id sig gm)).map
              serializeConflictInfo))
        else kvs)) := by
  simp [processEntry, Json.asObj, hfn, hsig]
  split <;> rfl

theorem processEntry_abort (kvs : List (String × Json)) (conflicts : List ConflictInfo)
    (gm : Bool) (hfn : isFunctionEntry kvs = true)
    (hsig : get_method_signature kvs = Option.none) :
    processEntry (.obj kvs) conflicts gm = Option.none := by
  simp [processEntry, Json.asObj, hfn, hsig]

theorem processEntry_frame (kvs : List (String × Json)) (conflicts : List ConflictInfo)
    (gm : Bool) (out : Json) (h : processEntry (.obj kvs) conflicts gm = some out) :
    ∃ kvs', out = .obj kvs' ∧
      ∀ k, k ≠ "conflictFields" → jlookup kvs' k = jlookup kvs k := by
  by_cases hfn : isFunctionEntry kvs = true
  · cases hsig : get_method_signature kvs with
    | none =>
        rw [processEntry_abort kvs conflicts gm hfn hsig] at h
        simp at h
    | some sig =>
        rw [processEntry_function kvs conflicts gm sig hfn hsig] at h
        obtain rfl : out = _ := ((Option.some.injEq _ _).mp h).symm
        split
        · exact ⟨_, rfl, fun k hk => by
            rw [jlookup_jinsert]
            exact if_neg (fun hh => hk hh.symm)⟩
        · exact ⟨kvs, rfl, fun _ _ => rfl⟩
  · rw [Bool.not_eq_true] at hfn
    rw [processEntry_skip kvs conflicts gm hfn] at h
    obtain rfl : out = _ := ((Option.some.injEq _ _).mp h).symm
    exact ⟨kvs, rfl, fun _ _ => rfl⟩

theorem takeDigits_all (l : List Char) : (takeDigits l).1.all isDigitChar = true := by
  induction l with
  | nil => rfl
  | cons c rest ih =>
      by_cases h : isDigitChar c <;> simp [takeDigits, h, ih]

theorem findSlotMatch_shape :
    ∀ (l : List Char) (m : List Char), findSlotMatch l = some m →
      ∃ ds, m = '0' :: 'x' :: ds ∧ ds ≠ [] ∧ ds.all isDigitChar = true := by
  intro l
  induction l using findSlotMatch.induct with
  | case1 => intro m h; simp [findSlotMatch] at h
  | case2 rest snd htd ih =>
      intro m h
      simp only [findSlotMatch, htd] at h
      exact ih m h
  | case3 rest ds snd hne htd =>
      intro m h
      rcases ds with _ | ⟨d, ds'⟩
      · exact absurd rfl hne
      · simp only [findSlotMatch, htd, Option.some.injEq] at h
        refine ⟨d :: ds', h.symm, by simp, ?_⟩
        have := takeDigits_all rest
        rw [htd] at this
        exact this
  | case4 head rest hne ih =>
      intro m h
      rw [findSlotMatch.eq_def] at h
      split at h
      · exact absurd h (by simp)
      · rename_i a rest1 heq
        injection heq with h0 hr
        exact (hne rest1 h0 hr).elim
      · rename_i a c rest1 hx heq
        injection heq with h0 hr
        subst hr
        exact ih m h

theorem findSlot_shape (s : String) (m : String) (h : findSlot s = some m) :
    ∃ ds : List Char, m = ('0' :: 'x' :: ds).asString ∧ ds ≠ [] ∧
      ds.all isDigitChar = true := by
  simp only [findSlot, Option.map_eq_some'] at h
  obtain ⟨l, hl, rfl⟩ := h
  obtain ⟨ds, rfl, hne, hall⟩ := findSlotMatch_shape _ l hl
  exact ⟨ds, rfl, hne, hall⟩

/-! ## Claim theorems -/

/-- C1: for every method entry, the canonical signature is the method name
followed by the parenthesized comma-joined list of each input's declared type
string taken verbatim, except that an input whose type is exactly `tuple` is
replaced by the parenthesized comma-joined type strings of its immediate
components (one level deep only: a nested tuple component renders as the
literal word `tuple`); no whitespace is inserted, empty inputs give
`name()`, and the spec's example `f(uint256,(address,bool))` holds. -/
theorem claim_C1_signature (name : String) (inputs : List SpecInput) :
    get_method_signature (jsonMethod name inputs) = some (specSignature name inputs) ∧
    specSignature name inputs =
      name ++ "(" ++ String.intercalate "," (inputs.map specRenderInput) ++ ")" ∧
    get_method_signature
      (jsonMethod "f" [⟨"uint256", []⟩, ⟨"tuple", ["address", "bool"]⟩]) =
      some "f(uint256,(address,bool))" ∧
    get_method_signature (jsonMethod "g" []) = some "g()" ∧
    get_method_signature [("name", .str "h"), ("type", .str "function"),
      ("inputs", .arr [.obj [("type", .str "tuple"),
        ("components", .arr [.obj [("type", .str "tuple"),
          ("components", .arr [.obj [("type", .str "address")]])],
          .obj [("type", .str "bool")]])]])] = some "h((tuple,bool))" :=
  ⟨get_method_signature_jsonMethod name inputs, rfl, rfl, rfl, rfl⟩

/-- C2: for every canonical signature string and mode flag, the selector is
the big-endian interpretation of the first 4 bytes of the digest of the
string's UTF-8 bytes as an unsigned 32-bit value, the digest being
Keccak-256 when the flag is false and SM3 when it is true. -/
theorem claim_C2_selector (sig : String) (gm : Bool) :
    get_method_id sig gm =
      (let d := if gm then sm3 (utf8Bytes sig) else keccak256 (utf8Bytes sig)
       d.getD 0 0 * 2 ^ 24 + d.getD 1 0 * 2 ^ 16 + d.getD 2 0 * 2 ^ 8 + d.getD 3 0) ∧
    get_method_id sig gm < 2 ^ 32 := by
  have key : ∀ d : List Nat, d.length = 32 → (∀ b ∈ d, b < 256) →
      u32FromBeBytes (d.take 4) =
        d.getD 0 0 * 2 ^ 24 + d.getD 1 0 * 2 ^ 16 + d.getD 2 0 * 2 ^ 8 + d.getD 3 0 ∧
      u32FromBeBytes (d.take 4) < 2 ^ 32 := by
    intro d hlen hlt
    constructor
    · exact u32FromBeBytes_take4 d (by omega)
    · have h1 := u32FromBeBytes_lt (d.take 4) (fun b hb => hlt b (List.take_subset _ _ hb))
      rw [List.length_take, hlen] at h1
      have h2 : (256 : Nat) ^ (4 ⊓ 32) = 2 ^ 32 := by norm_num
      rw [h2] at h1
      exact h1
  cases gm with
  | false =>
      obtain ⟨h1, h2⟩ := key (keccak256 (utf8Bytes sig)) (keccak256_length _)
        (keccak256_bytes_lt _)
      exact ⟨by simpa [get_method_id] using h1, by simpa [get_method_id] using h2⟩
  | true =>
      obtain ⟨h1, h2⟩ := key (sm3 (utf8Bytes sig)) (sm3_length _) (sm3_bytes_lt _)
      exact ⟨by simpa [get_method_id] using h1, by simpa [get_method_id] using h2⟩

/-- C3 counterexample: the claim says the stored slot is the numeral digits
with the leading `0x` stripped ("7" for the example row), but the code uses
`Regex::find(..).as_str()`, the full match of `0x(\d+)` including the `0x`
prefix (the capture group is never consulted), so the example row stores and
serializes the slot string "0x7", not "7". -/
theorem claim_C3_counterexample :
    parseEnvRow ["_", "0xaabbccdd", "CALLER", "slot is 0x7"] =
      some (⟨ConflictType.env, 0xaabbccdd, "0x7", some 0⟩, []) ∧
    serializeConflictInfo ⟨ConflictType.env, 0xaabbccdd, "0x7", some 0⟩ =
      Json.obj [("kind", Json.num 2), ("slot", Json.str "0x7"), ("value", Json.num 0)] ∧
    "0x7" ≠ "7" :=
  ⟨rfl, rfl, by decide⟩

/-- C3 amended: for every Env-file (and Var-file) row, the stored slot is
exactly the full substring of column 3 matched by the regex `0x(\d+)` —
including the leading `0x` — i.e. `0x` followed by a nonempty run of decimal
digits (so the example row with slot text `slot is 0x7` produces a record
whose serialized slot is the string "0x7"). -/
theorem claim_C3_amended (x sel t valS text : String) (s val : Nat) (m : String)
    (hs : parseSelector sel = some s) (hv : fromStrRadix 10 valS = some val)
    (hm : findSlot text = some m) :
    (parseEnvRow [x, sel, t, text]).map (fun p => p.1.slot) = some m ∧
    (parseVarRow [x, sel, valS, text]).map (fun c => c.slot) = some m ∧
    ∃ ds : List Char, m = ('0' :: 'x' :: ds).asString ∧ ds ≠ [] ∧
      ds.all isDigitChar = true := by
  refine ⟨?_, ?_, findSlot_shape text m hm⟩
  · rw [parseEnvRow_forward x sel t text s m hs hm]
    rfl
  · rw [show parseVarRow [x, sel, valS, text] = some ⟨.var, s, m, some val⟩ from by
      simp [parseVarRow, hs, hv, hm, List.get?]]
    rfl

/-- C3 amended, witness at the spec's end-to-end example row. -/
theorem claim_C3_amended_witness :
    parseSelector "0xaabbccdd" = some 0xaabbccdd ∧
    findSlot "slot is 0x7" = some "0x7" ∧
    ((parseEnvRow ["_", "0xaabbccdd", "CALLER", "slot is 0x7"]).map
      (fun p => p.1.slot) = some "0x7" ∧
     (parseVarRow ["_", "0xaabbccdd", "3", "slot is 0x7"]).map
      (fun c => c.slot) = some "0x7" ∧
     ∃ ds : List Char, "0x7" = ('0' :: 'x' :: ds).asString ∧ ds ≠ [] ∧
       ds.all isDigitChar = true) :=
  ⟨rfl, rfl, claim_C3_amended "_" "0xaabbccdd" "CALLER" "3" "slot is 0x7"
    0xaabbccdd 3 "0x7" rfl rfl rfl⟩

/-- C4: for every conflict record R and every (well-formed) function entry M,
R appears in M's attached `conflictFields` iff R's selector equals the
selector of M's canonical signature under the run's mode flag; the attached
sequence is the order-preserving filter of the loaded record list; the
loaded list is in file-then-row order (Env rows, then Var, then Const, then
None); and on a truncated-hash collision each colliding entry receives the
record, with no crash. -/
theorem claim_C4_join (conflictsList : List ConflictInfo) (gm : Bool)
    (name : String) (inputs : List SpecInput) :
    (processEntry (.obj (jsonMethod name inputs)) conflictsList gm =
      some (.obj
        (if (conflictsList.filter
              (fun c => c.selector == get_method_id (specSignature name inputs) gm)).length ≠ 0
         then
          jinsert (jsonMethod name inputs) "conflictFields"
            (.arr ((conflictsList.filter
              (fun c => c.selector == get_method_id (specSignature name inputs) gm)).map
                serializeConflictInfo))
         else jsonMethod name inputs))) ∧
    (∀ R : ConflictInfo,
      R ∈ conflictsList.filter
          (fun c => c.selector == get_method_id (specSignature name inputs) gm) ↔
        R ∈ conflictsList ∧ R.selector = get_method_id (specSignature name inputs) gm) ∧
    (∀ (name2 : String) (inputs2 : List SpecInput) (R : ConflictInfo),
      R ∈ conflictsList →
      R.selector = get_method_id (specSignature name inputs) gm →
      get_method_id (specSignature name2 inputs2) gm =
        get_method_id (specSignature name inputs) gm →
      (R ∈ conflictsList.filter
          (fun c => c.selector == get_method_id (specSignature name inputs) gm) ∧
       R ∈ conflictsList.filter
          (fun c => c.selector == get_method_id (specSignature name2 inputs2) gm))) ∧
    (∀ (e v cf n : List (List String)) (envs : List ConflictInfo) (ws : List String)
        (vars consts nones : List ConflictInfo),
      parseEnvRows e = some (envs, ws) →
      optionMap parseVarRow v = some vars →
      optionMap parseConstRow cf = some consts →
      optionMap parseNoneRow n = some nones →
      parse_conflict_info e v cf n = some (envs ++ vars ++ consts ++ nones, ws)) := by
  refine ⟨?_, ?_, ?_, ?_⟩
  · exact processEntry_function _ _ _ _ (isFunctionEntry_jsonMethod name inputs)
      (get_method_signature_jsonMethod name inputs)
  · intro R
    rw [List.mem_filter]
    simp
  · intro name2 inputs2 R hR hsel hmid
    constructor <;> rw [List.mem_filter] <;> simp [hR, hsel, hmid]
  · exact parse_conflict_info_eq

/-- C4 witness: concrete loader inputs and a concrete method. -/
theorem claim_C4_join_witness :
    parse_conflict_info [["_", "0xaabbccdd", "CALLER", "slot is 0x7"]] [] [] [] =
      some ([⟨ConflictType.env, 0xaabbccdd, "0x7", some 0⟩] ++ [] ++ [] ++ [], []) :=
  (claim_C4_join [] false "f" []).2.2.2
    [["_", "0xaabbccdd", "CALLER", "slot is 0x7"]] [] [] []
    [⟨ConflictType.env, 0xaabbccdd, "0x7", some 0⟩] [] [] [] [] rfl rfl rfl rfl

/-- C5: for every loader-produced record, the serialized form never carries
a `selector` key, and carries a `value` key iff the record's kind is Env or
Var (absent keys are omitted entirely — the serialization has no null). -/
theorem claim_C5_serialization (e v cf n : List (List String))
    (records : List ConflictInfo) (ws : List String)
    (h : parse_conflict_info e v cf n = some (records, ws)) :
    ∀ c ∈ records,
      hasKey (serializeConflictInfo c) "selector" = false ∧
      (hasKey (serializeConflictInfo c) "value" = true ↔
        (c.kind = ConflictType.env ∨ c.kind = ConflictType.var)) := by
  intro c hc
  obtain ⟨envs, ws0, vars, consts, nones, h1, h2, h3, h4, hrec, _⟩ :=
    parse_conflict_info_inv _ _ _ _ _ _ h
  subst hrec
  refine ⟨serialize_no_selector c, ?_⟩
  rw [serialize_value_key]
  rcases List.mem_append.mp hc with hc' | hc4
  · rcases List.mem_append.mp hc' with hc'' | hc3
    · rcases List.mem_append.mp hc'' with hc1 | hc2
      · obtain ⟨row, w, hrow⟩ := parseEnvRows_mem e envs ws0 h1 c hc1
        obtain ⟨hk, hv⟩ := parseEnvRow_kind_value _ _ _ hrow
        simp [hk, hv]
      · obtain ⟨row, _, hrow⟩ := optionMap_mem _ _ _ h2 c hc2
        obtain ⟨hk, hv⟩ := parseVarRow_kind_value _ _ hrow
        simp [hk, hv]
    · obtain ⟨row, _, hrow⟩ := optionMap_mem _ _ _ h3 c hc3
      obtain ⟨hk, hv⟩ := parseConstRow_kind_value _ _ hrow
      simp [hk, hv]
  · obtain ⟨row, _, hrow⟩ := optionMap_mem _ _ _ h4 c hc4
    obtain ⟨hk, hv, _⟩ := parseNoneRow_shape _ _ hrow
    simp [hk, hv]

/-- C5 witness: one row of each file, checked on the Env record. -/
theorem claim_C5_witness :
    hasKey (serializeConflictInfo ⟨ConflictType.env, 0xaabbccdd, "0x7", some 0⟩)
      "selector" = false ∧
    (hasKey (serializeConflictInfo ⟨ConflictType.env, 0xaabbccdd, "0x7", some 0⟩)
      "value" = true ↔
      ((⟨ConflictType.env, 0xaabbccdd, "0x7", some 0⟩ : ConflictInfo).kind =
          ConflictType.env ∨
       (⟨ConflictType.env, 0xaabbccdd, "0x7", some 0⟩ : ConflictInfo).kind =
          ConflictType.var)) :=
  claim_C5_serialization [["_", "0xaabbccdd", "CALLER", "slot is 0x7"]] [] [] []
    [⟨ConflictType.env, 0xaabbccdd, "0x7", some 0⟩] [] rfl
    ⟨ConflictType.env, 0xaabbccdd, "0x7", some 0⟩ (by simp)

/-- C6: an ABI entry that is not a function entry (wrong `type`, or missing
`name`/`type`) never receives a `conflictFields` key — it is returned
unchanged regardless of any selector coincidence; a function entry whose
selector matches zero records is left unmodified (no empty array inserted);
and annotation changes no key other than `conflictFields` on any entry. -/
theorem claim_C6_frame :
    (∀ (kvs : List (String × Json)) (conflicts : List ConflictInfo) (gm : Bool),
      isFunctionEntry kvs = false →
      processEntry (.obj kvs) conflicts gm = some (.obj kvs)) ∧
    (∀ (kvs : List (String × Json)) (conflicts : List ConflictInfo) (gm : Bool)
        (sig : String),
      isFunctionEntry kvs = true → get_method_signature kvs = some sig →
      conflicts.filter (fun c => c.selector == get_method_id sig gm) = [] →
      processEntry (.obj kvs) conflicts gm = some (.obj kvs)) ∧
    (∀ (kvs : List (String × Json)) (conflicts : List ConflictInfo) (gm : Bool)
        (out : Json),
      processEntry (.obj kvs) conflicts gm = some out →
      ∃ kvs', out = .obj kvs' ∧ ∀ k, k ≠ "conflictFields" →
        jlookup kvs' k = jlookup kvs k) := by
  refine ⟨processEntry_skip, ?_, processEntry_frame⟩
  intro kvs conflicts gm sig hfn hsig hfil
  rw [processEntry_function kvs conflicts gm sig hfn hsig, hfil]
  simp

/-- C6 witness: an event entry, an unmatched function entry, and the frame
property at the event entry. -/
theorem claim_C6_frame_witness :
    processEntry (.obj [("type", Json.str "event"), ("name", Json.str "E")]) [] false =
      some (.obj [("type", Json.str "event"), ("name", Json.str "E")]) ∧
    processEntry (.obj (jsonMethod "g" [])) [] false = some (.obj (jsonMethod "g" [])) ∧
    (∃ kvs', Json.obj (jsonMethod "g" []) = Json.obj kvs' ∧
      ∀ k, k ≠ "conflictFields" → jlookup kvs' k = jlookup (jsonMethod "g" []) k) :=
  ⟨claim_C6_frame.1 _ [] false rfl,
   claim_C6_frame.2.1 _ [] false "g()" rfl rfl rfl,
   claim_C6_frame.2.2 (jsonMethod "g" []) [] false (.obj (jsonMethod "g" []))
     (claim_C6_frame.2.1 _ [] false "g()" rfl rfl rfl)⟩

/-- C7: every fatal condition (unreadable/malformed ABI document, a failing
conflict-CSV parse, a non-array ABI document, a panic while processing an
entry) makes the run abort producing no output document — the rewrite
happens only after the whole in-memory pass succeeds. -/
theorem claim_C7_abort :
    (∀ (e v cf n : List (List String)) (gm : Bool),
      runMain Option.none e v cf n gm = Option.none) ∧
    (∀ (abi : Json) (e v cf n : List (List String)) (gm : Bool),
      parse_conflict_info e v cf n = Option.none →
      runMain (some abi) e v cf n gm = Option.none) ∧
    (∀ (abi : Json) (e v cf n : List (List String)) (gm : Bool)
        (cw : List ConflictInfo × List String),
      parse_conflict_info e v cf n = some cw →
      abi.asArr = Option.none →
      runMain (some abi) e v cf n gm = Option.none) ∧
    (∀ (abi : Json) (entries : List Json) (e v cf n : List (List String)) (gm : Bool)
        (cw : List ConflictInfo × List String),
      parse_conflict_info e v cf n = some cw →
      abi.asArr = some entries →
      optionMap (fun x => processEntry x cw.1 gm) entries = Option.none →
      runMain (some abi) e v cf n gm = Option.none) ∧
    (∀ (abiDoc : Option Json) (e v cf n : List (List String)) (gm : Bool) (out : Json),
      runMain abiDoc e v cf n gm = some out →
      ∃ abi cw entries processed, abiDoc = some abi ∧
        parse_conflict_info e v cf n = some cw ∧ abi.asArr = some entries ∧
        optionMap (fun x => processEntry x cw.1 gm) entries = some processed ∧
        out = .arr processed) := by
  refine ⟨?_, ?_, ?_, ?_, ?_⟩
  · intro e v cf n gm
    rfl
  · intro abi e v cf n gm h
    simp [runMain, h]
  · intro abi e v cf n gm cw h1 h2
    simp [runMain, h1, h2]
  · intro abi entries e v cf n gm cw h1 h2 h3
    simp [runMain, h1, h2, h3]
  · intro abiDoc e v cf n gm out h
    simp only [runMain, Option.bind_eq_bind', Option.bind_eq_some, Option.pure_def,
      Option.some.injEq] at h
    obtain ⟨abi, ha, cw, hcw, entries, hent, processed, hproc, hout⟩ := h
    exact ⟨abi, cw, entries, processed, ha, hcw, hent, hproc, hout.symm⟩

/-- C7 witness: a missing ABI document, a malformed CSV row, and a
non-array ABI document each abort the run with no output. -/
theorem claim_C7_abort_witness :
    runMain Option.none [] [] [] [] false = Option.none ∧
    runMain (some (Json.arr [])) [[]] [] [] [] false = Option.none ∧
    runMain (some (Json.num 3)) [] [] [] [] false = Option.none :=
  ⟨claim_C7_abort.1 [] [] [] [] false,
   claim_C7_abort.2.1 (Json.arr []) [[]] [] [] [] false rfl,
   claim_C7_abort.2.2.1 (Json.num 3) [] [] [] [] false ([], []) rfl rfl⟩

/-- C8: the Env-file token mapping is Caller=0 for CALLER, Origin=1 for
ORIGIN, Now=2 for TIMESTAMP, BlockNumber=3 for NUMBER, Address=4 for
ADDRESS; any other token maps to Unknown=5 with a warning logged, and the
row is still parsed (the sole non-fatal anomaly). -/
theorem claim_C8_env_tokens :
    (classifyEnvToken "CALLER" = (EnvironmentType.caller, []) ∧
     classifyEnvToken "ORIGIN" = (EnvironmentType.origin, []) ∧
     classifyEnvToken "TIMESTAMP" = (EnvironmentType.now, []) ∧
     classifyEnvToken "NUMBER" = (EnvironmentType.blockNumber, []) ∧
     classifyEnvToken "ADDRESS" = (EnvironmentType.address, [])) ∧
    (EnvironmentType.caller.code = 0 ∧ EnvironmentType.origin.code = 1 ∧
     EnvironmentType.now.code = 2 ∧ EnvironmentType.blockNumber.code = 3 ∧
     EnvironmentType.address.code = 4 ∧ EnvironmentType.unknown.code = 5) ∧
    (∀ t : String, t ∉ ["CALLER", "ORIGIN", "TIMESTAMP", "NUMBER", "ADDRESS"] →
      classifyEnvToken t = (EnvironmentType.unknown, ["Unknown environment type: " ++ t])) ∧
    (∀ (x sel t text : String) (s : Nat) (m : String),
      parseSelector sel = some s → findSlot text = some m →
      parseEnvRow [x, sel, t, text] =
        some (⟨.env, s, m, some (classifyEnvToken t).1.code⟩, (classifyEnvToken t).2)) := by
  refine ⟨⟨rfl, rfl, rfl, rfl, rfl⟩, ⟨rfl, rfl, rfl, rfl, rfl, rfl⟩, ?_, parseEnvRow_forward⟩
  intro t ht
  simp only [List.mem_cons, List.not_mem_nil, or_false, not_or] at ht
  obtain ⟨h1, h2, h3, h4, h5⟩ := ht
  simp [classifyEnvToken, h1, h2, h3, h4, h5]

/-- C8 witness: an unrecognized token still yields a parsed row, with the
Unknown discriminant 5 and a logged warning. -/
theorem claim_C8_env_tokens_witness :
    classifyEnvToken "SELFBALANCE" =
      (EnvironmentType.unknown, ["Unknown environment type: SELFBALANCE"]) ∧
    parseEnvRow ["_", "0xaabbccdd", "SELFBALANCE", "slot is 0x7"] =
      some (⟨.env, 0xaabbccdd, "0x7",
        some (classifyEnvToken "SELFBALANCE").1.code⟩,
        (classifyEnvToken "SELFBALANCE").2) :=
  ⟨claim_C8_env_tokens.2.2.1 "SELFBALANCE" (by simp),
   claim_C8_env_tokens.2.2.2 "_" "0xaabbccdd" "SELFBALANCE" "slot is 0x7"
     0xaabbccdd "0x7" rfl rfl⟩

/-- C9 counterexample: the claim says malformed entries (e.g. a
function-typed entry whose `name` is not a string) are left untouched
without aborting, but such an entry makes the per-entry pass panic (the
run aborts, modelled as `none`) instead of being returned unchanged. -/
theorem claim_C9_counterexample :
    processEntry (.obj [("name", Json.num 1), ("type", Json.str "function")]) [] false =
      Option.none :=
  rfl

/-- C9 amended: every ABI entry that does not have both a `name` field and
a `type` field equal to `"function"` is skipped (returned unchanged), but a
function-typed entry that is malformed (non-string `name`, or missing or
invalid `inputs`, i.e. its signature computation panics) aborts the run
rather than being left untouched. -/
theorem claim_C9_amended :
    (∀ (kvs : List (String × Json)) (conflicts : List ConflictInfo) (gm : Bool),
      isFunctionEntry kvs = false →
      processEntry (.obj kvs) conflicts gm = some (.obj kvs)) ∧
    (∀ (kvs : List (String × Json)) (conflicts : List ConflictInfo) (gm : Bool),
      isFunctionEntry kvs = true → get_method_signature kvs = Option.none →
      processEntry (.obj kvs) conflicts gm = Option.none) :=
  ⟨processEntry_skip, processEntry_abort⟩

/-- C9 witness: a constructor entry is skipped unchanged; a function entry
lacking `inputs` aborts. -/
theorem claim_C9_amended_witness :
    processEntry (.obj [("type", Json.str "constructor")]) [] false =
      some (.obj [("type", Json.str "constructor")]) ∧
    processEntry (.obj [("name", Json.str "f"), ("type", Json.str "function")]) [] true =
      Option.none :=
  ⟨claim_C9_amended.1 _ [] false rfl, claim_C9_amended.2 _ [] true rfl rfl⟩

/-- C10: every record produced from the None file stores the empty string
as its slot, and every serialized conflict record — all kinds included —
carries a `slot` key, whose value is the stored slot string ("" for kind
None). -/
theorem claim_C10_none_slot :
    (∀ (row : List String) (c : ConflictInfo), parseNoneRow row = some c →
      c.kind = ConflictType.none ∧ c.slot = "") ∧
    (∀ c : ConflictInfo, hasKey (serializeConflictInfo c) "slot" = true) ∧
    (∀ c : ConflictInfo, (serializeConflictInfo c).index "slot" = Json.str c.slot) := by
  refine ⟨?_, serialize_slot_key, serialize_slot_value⟩
  intro row c h
  obtain ⟨hk, _, hs⟩ := parseNoneRow_shape row c h
  exact ⟨hk, hs⟩

/-- C10 witness: a concrete None-file row. -/
theorem claim_C10_none_slot_witness :
    (⟨ConflictType.none, 0x01020304, "", Option.none⟩ : ConflictInfo).kind =
        ConflictType.none ∧
    (⟨ConflictType.none, 0x01020304, "", Option.none⟩ : ConflictInfo).slot = "" :=
  claim_C10_none_slot.1 ["0x01020304"] ⟨ConflictType.none, 0x01020304, "", Option.none⟩ rfl

end ConflictsInfo
